import Mathlib

/-!
Verification development for the vbsfu5 browser extension, centred on
`src/background.js`: the bounded-concurrency scrape orchestrator
(`fetchAllDetailsViaTabs`), its per-item pipeline (`processNextItem`),
the message/timeout correlation promise (`resultPromise`), the
coordinator policy in the `startFullViewGeneration` handler, the
timeline assembly in `buildFullViewHtml`, and the date parser
`parseDateString`.

The JavaScript runs single-threaded with cooperative concurrency: a
pipeline only yields at `await` points.  We embed the pool as a small-step
state machine whose steps correspond to (at most) one synchronous segment
between suspension points of one runner, driven by an arbitrary schedule;
the outcome of each environment interaction (tab creation, page load,
script injection, scrape message, tab removal) is supplied by a
per-item environment record.
-/

/-- The `itemType` parameter of `fetchAllDetailsViaTabs`: `'Note'` or `'Email'`. -/
inductive ItemType
  | note
  | email
deriving DecidableEq, Repr

/-- Model of a JavaScript `Date` value: either built from explicit components
by `new Date(year, month, day, hour, minute)` (months 0-indexed, as in the
source), or from a millisecond timestamp by `new Date(Date.parse(s))`. -/
inductive JSDate
  | fromComponents (year month day hour minute : Int)
  | fromMs (ms : Int)
deriving DecidableEq, Repr

/-- The five captured groups of the regex
`(\d{2})\/(\d{2})\/(\d{4})\s+(\d{2}):(\d{2})` in `parseDateString`,
already converted to numbers as `parseInt` does on all-digit strings. -/
structure DMYHM where
  day : Nat
  month : Nat
  year : Nat
  hour : Nat
  minute : Nat
deriving DecidableEq, Repr

/-- Numeric value of a decimal digit character. -/
def digitVal (c : Char) : Nat := c.toNat - '0'.toNat

/-- Whitespace class `\s` of the JavaScript regex engine, restricted to the
ASCII whitespace characters (the inputs of interest contain only these). -/
def isJsSpace (c : Char) : Bool :=
  c = ' ' || c = '\t' || c = '\n' || c = '\r' || c = '\x0b' || c = '\x0c'

/-- Tail of the pattern after the whitespace run: `(\d{2}):(\d{2})`. -/
def matchHM : List Char → Option (Nat × Nat)
  | a :: b :: ':' :: c :: d :: _ =>
    if a.isDigit && b.isDigit && c.isDigit && d.isDigit then
      some (digitVal a * 10 + digitVal b, digitVal c * 10 + digitVal d)
    else none
  | _ => none

/-- Consume the rest of the greedy whitespace run `\s+` (at least one
whitespace character has already been consumed), then match `(\d{2}):(\d{2})`.
Greedy matching followed by a digit requirement is equivalent to consuming
the maximal whitespace run, since no whitespace character is a digit. -/
def matchHMAfterSpace : List Char → Option (Nat × Nat)
  | [] => none
  | c :: rest => if isJsSpace c then matchHMAfterSpace rest else matchHM (c :: rest)

/-- Attempt to match `(\d{2})\/(\d{2})\/(\d{4})\s+(\d{2}):(\d{2})` at the
head of the character list, exactly as the regex engine tries a match at one
position. -/
def matchDMYHMAt : List Char → Option DMYHM
  | d1 :: d2 :: '/' :: m1 :: m2 :: '/' :: y1 :: y2 :: y3 :: y4 :: s :: rest =>
    if d1.isDigit && d2.isDigit && m1.isDigit && m2.isDigit &&
       y1.isDigit && y2.isDigit && y3.isDigit && y4.isDigit && isJsSpace s then
      match matchHMAfterSpace (s :: rest) with
      | some (h, mi) =>
        some { day := digitVal d1 * 10 + digitVal d2,
               month := digitVal m1 * 10 + digitVal m2,
               year := digitVal y1 * 1000 + digitVal y2 * 100 + digitVal y3 * 10 + digitVal y4,
               hour := h, minute := mi }
      | none => none
    else none
  | _ => none

/-- Leftmost match of the date/time regex, as returned by
`dateString.match(...)` (no global flag: first match only). -/
def firstDMYHM : List Char → Option DMYHM
  | [] => none
  | c :: rest =>
    match matchDMYHMAt (c :: rest) with
    | some g => some g
    | none => firstDMYHM rest

/-- Range check of `parseDateString` on the parsed components, written with
the source's 0-indexed month (`month = parseInt(match[2]) - 1`):
`year > 1970 && month >= 0 && month < 12 && day >= 1 && day <= 31 &&
hour >= 0 && hour < 24 && minute >= 0 && minute < 60`. -/
def dmyhmInRange (g : DMYHM) : Bool :=
  let month : Int := (g.month : Int) - 1
  (g.year : Int) > 1970 && month ≥ 0 && month < 12 &&
  (g.day : Int) ≥ 1 && (g.day : Int) ≤ 31 &&
  (g.hour : Int) ≥ 0 && (g.hour : Int) < 24 &&
  (g.minute : Int) ≥ 0 && (g.minute : Int) < 60

/-- The `Date` object built by `new Date(year, month, day, hour, minute)` on
the regex route. -/
def dateFromGroups (g : DMYHM) : JSDate :=
  JSDate.fromComponents (g.year : Int) ((g.month : Int) - 1) (g.day : Int)
    (g.hour : Int) (g.minute : Int)

/-- Embedding of `parseDateString` (background.js lines 64–97).  The generic
`Date.parse` fallback is abstracted as the parameter `dateParse`, returning
the parsed millisecond timestamp when it succeeds and `none` when it yields
`NaN`.  Notes on the translation:
* `if (!dateString) return null` — the only falsy string is the empty one
  (an absent argument is modelled as the empty string as well);
* on the regex route, with components that pass the range check the
  constructed `Date` is never invalid (`isNaN(dateObject.getTime())` is
  false for finite in-range arguments), so the inner `isNaN` guard and the
  unreachable `catch` are not represented;
* if the first regex match fails the range check, control falls through to
  the `Date.parse` fallback — later matches are never examined. -/
def parseDateString (dateParse : String → Option Int) (dateString : String) : Option JSDate :=
  if dateString.isEmpty then none
  else
    let fromRegex : Option JSDate :=
      match firstDMYHM dateString.data with
      | some g => if dmyhmInRange g then some (dateFromGroups g) else none
      | none => none
    match fromRegex with
    | some d => some d
    | none =>
      match dateParse dateString with
      | some ms => some (JSDate.fromMs ms)
      | none => none

/-- Predicate written from claim C9's own words: the input contains (at some
position) a substring matching the `DD/MM/YYYY HH:MM` pattern whose
components pass the range check.  Used only to state and refute the claim;
the code itself never looks past the first match. -/
def hasInRangeDMYHM : List Char → Bool
  | [] => false
  | c :: rest =>
    (match matchDMYHMAt (c :: rest) with
     | some g => dmyhmInRange g
     | none => false) || hasInRangeDMYHM rest

/-- One work item of `itemsToFetch` (`itemInfo` in the source): its `url`
and its raw `dateStr` hint.  An absent `dateStr` is modelled as the empty
string (both are falsy to `parseDateString`). -/
structure WorkItem where
  url : String
  dateStr : String
deriving DecidableEq, Repr

/-- Fields of a scrape completion message (`scrapeResult`), all optional:
`title/author/description/isPublic` are read on the Note route,
`subject/fromAddr/bodyHTML/toRecipients` on the Email route (`from` and `to`
are reserved in Lean, hence `fromAddr` and `toRecipients`). -/
structure ScrapeMsg where
  title : Option String
  author : Option String
  description : Option String
  isPublic : Option Bool
  subject : Option String
  fromAddr : Option String
  bodyHTML : Option String
  toRecipients : Option String
deriving DecidableEq, Repr

/-- JavaScript `x || d` on an optional string field: the default is taken
when the field is absent or is the (falsy) empty string. -/
def orDefault (o : Option String) (d : String) : String :=
  match o with
  | some s => if s.isEmpty then d else s
  | none => d

/-- The normalized `unifiedResult` / error record stored in `resultsMap`.
Fields absent in JavaScript (`to` on notes, `isPublic`/`to` on error
records) are `none`; the source's `to` field is `toRecipients` here. -/
structure ResultRecord where
  type : ItemType
  title : String
  author : String
  content : String
  isPublic : Option Bool
  toRecipients : Option String
  dateObject : Option JSDate
  url : String
deriving DecidableEq, Repr

/-- Construction of `unifiedResult` (background.js lines 169–192). -/
def mkUnifiedResult (ty : ItemType) (msg : ScrapeMsg) (parsedDate : Option JSDate)
    (itemUrl : String) : ResultRecord :=
  match ty with
  | ItemType.note =>
    { type := ItemType.note,
      title := orDefault msg.title "Note",
      author := orDefault msg.author "Unknown Author",
      content := orDefault msg.description "[No Content]",
      isPublic := msg.isPublic,
      toRecipients := none,
      dateObject := parsedDate,
      url := itemUrl }
  | ItemType.email =>
    { type := ItemType.email,
      title := orDefault msg.subject "Email Subject Not Found",
      author := orDefault msg.fromAddr "Unknown Sender",
      content := orDefault msg.bodyHTML "[Email Body Not Found]",
      isPublic := none,
      toRecipients := some (orDefault msg.toRecipients "Unknown Recipient(s)"),
      dateObject := parsedDate,
      url := itemUrl }

/-- The error record synthesized in the `catch` block (background.js line
199): `dateObject: parseDateString(itemInfo.dateStr) || new Date()` — a
`Date` object is always truthy, so the current time `now` is used exactly
when parsing fails, and `dateObject` is never null. -/
def mkErrorRecord (ty : ItemType) (dateParse : String → Option Int) (now : JSDate)
    (it : WorkItem) (errMsg : String) : ResultRecord :=
  { type := ty,
    title := "[Error processing item]",
    author := "System",
    content := errMsg,
    isPublic := none,
    toRecipients := none,
    dateObject := some ((parseDateString dateParse it.dateStr).getD now),
    url := it.url }

/-- Environment behaviour for one item's pipeline: which awaited step (if
any) fails, and whether the final `chrome.tabs.remove` throws.
* `createFail msg`: `chrome.tabs.create` rejects;
* `createNoId`: the created tab has no `id` (the guarded `throw`);
* `loadTimeout`: the readiness wait rejects after 12 s;
* `injectFail msg`: `chrome.scripting.executeScript` rejects (covers any
  exception raised at the injection await);
* `corrTimeout`: the correlation promise rejects after 14 s;
* `success msg`: the scrape completion message arrives in time. -/
inductive FetchOutcome
  | createFail (msg : String)
  | createNoId
  | loadTimeout
  | injectFail (msg : String)
  | corrTimeout
  | success (msg : ScrapeMsg)
deriving DecidableEq, Repr

/-- Per-item environment: the pipeline outcome plus whether the cleanup
`chrome.tabs.remove` itself throws. -/
structure ItemEnv where
  outcome : FetchOutcome
  removeFails : Bool
deriving DecidableEq, Repr

/-- Parameters shared by a whole `fetchAllDetailsViaTabs` run: the batch's
`itemType`, the `Date.parse` oracle, and the current time used by
`new Date()` on error paths. -/
structure PoolParams where
  itemType : ItemType
  dateParse : String → Option Int
  now : JSDate

/-- The `try` block of `processNextItem` (background.js lines 116–196),
given the tab id the allocator would hand out: returns the value of
`tempTab?.id` observed by the `finally` block, together with either the
normalized record (success) or the caught error's `message`. -/
def tryBody (P : PoolParams) (tabId : Nat) (it : WorkItem) (env : ItemEnv) :
    Option Nat × Except String ResultRecord :=
  match env.outcome with
  | FetchOutcome.createFail m => (none, Except.error m)
  | FetchOutcome.createNoId => (none, Except.error "Failed to create temp tab.")
  | FetchOutcome.loadTimeout =>
    (some tabId, Except.error ("Timeout waiting for tab " ++ toString tabId ++ " to load"))
  | FetchOutcome.injectFail m => (some tabId, Except.error m)
  | FetchOutcome.corrTimeout =>
    (some tabId, Except.error ("Timeout waiting for scrape result from tab " ++ toString tabId))
  | FetchOutcome.success msg =>
    (some tabId,
     Except.ok (mkUnifiedResult P.itemType msg (parseDateString P.dateParse it.dateStr) it.url))

/-- Observable effects of one `processNextItem` call. -/
structure ItemRun where
  record : ResultRecord
  tabAcquired : Bool
  releaseCount : Nat
deriving DecidableEq, Repr

/-- Sequential effect of `processNextItem` on one item (background.js lines
108–209): the `try` body either yields `unifiedResult` or throws; the
`catch` converts the thrown error into an error record; the `finally`
invokes `chrome.tabs.remove` exactly when `tempTab?.id` is set, and a
failure of the removal is caught and logged, affecting nothing else. -/
def processNextItem (P : PoolParams) (tabId : Nat) (it : WorkItem) (env : ItemEnv) : ItemRun :=
  let res := tryBody P tabId it env
  let record :=
    match res.2 with
    | Except.ok r => r
    | Except.error m => mkErrorRecord P.itemType P.dateParse P.now it m
  let releaseCount :=
    match res.1 with
    | some _ => 1
    | none => 0
  { record := record, tabAcquired := res.1.isSome, releaseCount := releaseCount }

/-- Record that ends up in `resultsMap` for one item under a given
environment and allocated tab id. -/
def recordOf (P : PoolParams) (it : WorkItem) (env : ItemEnv) (tabId : Nat) : ResultRecord :=
  (processNextItem P tabId it env).record

/-- JavaScript object property assignment `m[k] = v` on a string-keyed
object, viewed as an association list in property-insertion order: an
existing key keeps its position and gets the new value, a fresh key is
appended (this is exactly the enumeration order `Object.values` uses). -/
def setKey (m : List (String × ResultRecord)) (k : String) (v : ResultRecord) :
    List (String × ResultRecord) :=
  match m with
  | [] => [(k, v)]
  | (k', v') :: rest => if k' = k then (k, v) :: rest else (k', v') :: setKey rest k v

/-- Keys of the object, in insertion order. -/
def mapKeys (m : List (String × ResultRecord)) : List String := m.map Prod.fst

/-- The concurrency cap of `fetchAllDetailsViaTabs` (background.js line 104). -/
def CONCURRENCY_LIMIT : Nat := 4

/-- Stage of one in-flight item, named after the `await` the pipeline is
suspended on.  The tab id is carried from its allocation at creation time.
* `creating` — suspended on `chrome.tabs.create`;
* `loading t` — tab `t` open, suspended on the readiness wait;
* `injecting t` — suspended on `chrome.scripting.executeScript` (the
  correlation listener was registered just before);
* `awaitingMsg t` — suspended on `resultPromise`;
* `removing t` — the result record has been written to `resultsMap`,
  suspended on `chrome.tabs.remove` in the `finally` block. -/
inductive Stage
  | creating
  | loading (tabId : Nat)
  | injecting (tabId : Nat)
  | awaitingMsg (tabId : Nat)
  | removing (tabId : Nat)
deriving DecidableEq, Repr

/-- State of one of the `CONCURRENCY_LIMIT` runners (background.js lines
211–219): at the `while (taskQueue.length > 0)` check, inside
`processNextItem` on some item, or returned. -/
inductive RunnerState
  | checking
  | working (it : WorkItem) (env : ItemEnv) (st : Stage)
  | finished
deriving DecidableEq, Repr

/-- Global state of one `fetchAllDetailsViaTabs` run.  `taskQueue`,
`resultsMap` and the runner vector are from the source; `nextTabId` is the
browser's tab-id allocator; `tabsCreated`, `corrRegistered` and `processed`
are event counters/logs used to state the claims (they record, respectively,
how many tabs were created, how many correlation listeners were registered,
and the map writes in order, each with the item's environment and tab id). -/
structure PoolState where
  taskQueue : List (WorkItem × ItemEnv)
  runners : List RunnerState
  resultsMap : List (String × ResultRecord)
  nextTabId : Nat
  tabsCreated : Nat
  corrRegistered : Nat
  processed : List ((WorkItem × ItemEnv) × Nat)
deriving Repr

/-- Initial state: the queue holds `[...itemsToFetch]` (paired with each
item's environment), all runners start at the loop check, the results map
is the fresh `{}`. -/
def initPool (items : List (WorkItem × ItemEnv)) : PoolState :=
  { taskQueue := items,
    runners := List.replicate CONCURRENCY_LIMIT RunnerState.checking,
    resultsMap := [],
    nextTabId := 0,
    tabsCreated := 0,
    corrRegistered := 0,
    processed := [] }

/-- Common effect of the synchronous segment that stores a record into
`resultsMap[itemUrl]` and moves runner `i` to its next state. -/
def writeResult (P : PoolParams) (s : PoolState) (i : Nat) (it : WorkItem) (env : ItemEnv)
    (tabId : Nat) (next : RunnerState) : PoolState :=
  { s with resultsMap := setKey s.resultsMap it.url (recordOf P it env tabId),
           processed := s.processed ++ [((it, env), tabId)],
           runners := s.runners.set i next }

/-- Step of a runner at the `while` check: an empty queue ends the runner;
otherwise `taskQueue.shift()` pops the head and the pipeline runs up to the
`chrome.tabs.create` await.  The length check and the shift are one
synchronous segment, hence one atomic step. -/
def checkingStep (s : PoolState) (i : Nat) : PoolState :=
  match s.taskQueue with
  | [] => { s with runners := s.runners.set i RunnerState.finished }
  | (it, env) :: rest =>
    { s with taskQueue := rest,
             runners := s.runners.set i (RunnerState.working it env Stage.creating) }

/-- Resolution of the `chrome.tabs.create` await: a rejection or a missing
tab id throws into the `catch`/`finally` (no tab to remove, so the runner
returns to the loop check in the same segment); otherwise the fresh tab id
is allocated and the pipeline suspends on the readiness wait. -/
def creatingStep (P : PoolParams) (s : PoolState) (i : Nat) (it : WorkItem)
    (env : ItemEnv) : PoolState :=
  match env.outcome with
  | FetchOutcome.createFail _ => writeResult P s i it env 0 RunnerState.checking
  | FetchOutcome.createNoId => writeResult P s i it env 0 RunnerState.checking
  | _ =>
    { s with runners := s.runners.set i (RunnerState.working it env (Stage.loading s.nextTabId)),
             nextTabId := s.nextTabId + 1,
             tabsCreated := s.tabsCreated + 1 }

/-- Resolution of the readiness wait: a timeout throws (error record written,
then the pipeline suspends on `chrome.tabs.remove`); otherwise the
correlation promise is set up (listener registered) and the pipeline
suspends on the injection await. -/
def loadingStep (P : PoolParams) (s : PoolState) (i : Nat) (it : WorkItem) (env : ItemEnv)
    (t : Nat) : PoolState :=
  match env.outcome with
  | FetchOutcome.loadTimeout =>
    writeResult P s i it env t (RunnerState.working it env (Stage.removing t))
  | _ =>
    { s with runners := s.runners.set i (RunnerState.working it env (Stage.injecting t)),
             corrRegistered := s.corrRegistered + 1 }

/-- Resolution of the injection await: a rejection throws into the
`catch`/`finally`; otherwise the pipeline suspends on `resultPromise`. -/
def injectingStep (P : PoolParams) (s : PoolState) (i : Nat) (it : WorkItem) (env : ItemEnv)
    (t : Nat) : PoolState :=
  match env.outcome with
  | FetchOutcome.injectFail _ =>
    writeResult P s i it env t (RunnerState.working it env (Stage.removing t))
  | _ =>
    { s with runners := s.runners.set i (RunnerState.working it env (Stage.awaitingMsg t)) }

/-- Resolution of `resultPromise` (message or correlation timeout): the
record — success or error, as computed by `processNextItem` — is written and
the pipeline enters the `finally` tab removal. -/
def awaitingStep (P : PoolParams) (s : PoolState) (i : Nat) (it : WorkItem) (env : ItemEnv)
    (t : Nat) : PoolState :=
  writeResult P s i it env t (RunnerState.working it env (Stage.removing t))

/-- Resolution of `chrome.tabs.remove` (a rejection is caught and logged):
`processNextItem` returns and the runner loops back to the `while` check. -/
def removingStep (s : PoolState) (i : Nat) : PoolState :=
  { s with runners := s.runners.set i RunnerState.checking }

/-- Dispatch on the state of runner `i`. -/
def runnerStep (P : PoolParams) (s : PoolState) (i : Nat) : RunnerState → PoolState
  | RunnerState.checking => checkingStep s i
  | RunnerState.working it env Stage.creating => creatingStep P s i it env
  | RunnerState.working it env (Stage.loading t) => loadingStep P s i it env t
  | RunnerState.working it env (Stage.injecting t) => injectingStep P s i it env t
  | RunnerState.working it env (Stage.awaitingMsg t) => awaitingStep P s i it env t
  | RunnerState.working _ _ (Stage.removing _) => removingStep s i
  | RunnerState.finished => s

/-- One scheduler step: let runner `i` run its next synchronous segment (a
schedule index with no runner is a no-op). -/
def stepRunner (P : PoolParams) (s : PoolState) (i : Nat) : PoolState :=
  match s.runners[i]? with
  | some r => runnerStep P s i r
  | none => s

/-- Execution of a whole schedule: every interleaving of the event loop is
some schedule (a list of runner indices). -/
def runPool (P : PoolParams) (s : PoolState) (sched : List Nat) : PoolState :=
  sched.foldl (stepRunner P) s

/-- The run has completed: `Promise.all(runners)` resolved, i.e. every
runner returned. -/
def AllFinished (s : PoolState) : Prop :=
  ∀ r ∈ s.runners, r = RunnerState.finished

instance (s : PoolState) : Decidable (AllFinished s) := by
  unfold AllFinished; infer_instance

/-- Runner `i` is past "resource acquired" and not yet past "resource
released": a tab id has been allocated to it and the `finally` removal has
not yet completed. -/
def holdsTab : RunnerState → Bool
  | RunnerState.working _ _ (Stage.loading _) => true
  | RunnerState.working _ _ (Stage.injecting _) => true
  | RunnerState.working _ _ (Stage.awaitingMsg _) => true
  | RunnerState.working _ _ (Stage.removing _) => true
  | _ => false

/-- Number of pipelines concurrently holding a worker tab. -/
def tabsHeld (s : PoolState) : Nat := s.runners.countP holdsTab

/-- Multiset of items an in-flight runner still owes to `resultsMap`:
one item while it is working and the record has not been written yet
(stages up to and including `awaitingMsg`), nothing afterwards. -/
def runnerLoad : RunnerState → Multiset (WorkItem × ItemEnv)
  | RunnerState.working it env Stage.creating => {(it, env)}
  | RunnerState.working it env (Stage.loading _) => {(it, env)}
  | RunnerState.working it env (Stage.injecting _) => {(it, env)}
  | RunnerState.working it env (Stage.awaitingMsg _) => {(it, env)}
  | _ => 0

/-- Total unwritten load across all runners. -/
def totalLoad (rs : List RunnerState) : Multiset (WorkItem × ItemEnv) :=
  (rs.map runnerLoad).sum

theorem totalLoad_set (rs : List RunnerState) (i : Nat) (a b : RunnerState)
    (h : rs[i]? = some a) :
    totalLoad (rs.set i b) + runnerLoad a = totalLoad rs + runnerLoad b := by
  induction rs generalizing i with
  | nil => simp at h
  | cons x xs ih =>
    cases i with
    | zero =>
      simp only [List.getElem?_cons_zero, Option.some.injEq] at h
      subst h
      simp only [List.set, totalLoad, List.map_cons, List.sum_cons]
      abel
    | succ n =>
      simp only [List.getElem?_cons_succ] at h
      have hx := ih n h
      simp only [List.set, totalLoad, List.map_cons, List.sum_cons] at *
      rw [add_assoc, hx, ← add_assoc]

/-- The fold that rebuilds `resultsMap` from the sequence of writes. -/
def buildMap (P : PoolParams) (ps : List ((WorkItem × ItemEnv) × Nat)) :
    List (String × ResultRecord) :=
  ps.foldl (fun m e => setKey m e.1.1.url (recordOf P e.1.1 e.1.2 e.2)) []

theorem buildMap_append_one (P : PoolParams) (ps : List ((WorkItem × ItemEnv) × Nat))
    (e : (WorkItem × ItemEnv) × Nat) :
    buildMap P (ps ++ [e]) = setKey (buildMap P ps) e.1.1.url (recordOf P e.1.1 e.1.2 e.2) := by
  simp [buildMap, List.foldl_append]

/-- Inductive invariant of the pool machine.
* `runnersLen`: the runner vector keeps its `CONCURRENCY_LIMIT` entries;
* `accounting`: every initial item is in the queue, owed by an in-flight
  runner, or already written (as a multiset identity);
* `mapBuilt`: `resultsMap` is exactly the fold of the recorded writes;
* `finishedEmpty`: a runner only ever returns on an empty queue, and the
  queue never grows. -/
structure PoolInv (P : PoolParams) (items : List (WorkItem × ItemEnv)) (s : PoolState) : Prop where
  runnersLen : s.runners.length = CONCURRENCY_LIMIT
  accounting :
    (items : Multiset (WorkItem × ItemEnv)) =
      ↑s.taskQueue + totalLoad s.runners + ↑(s.processed.map Prod.fst)
  mapBuilt : s.resultsMap = buildMap P s.processed
  finishedEmpty : RunnerState.finished ∈ s.runners → s.taskQueue = []

theorem poolInv_init (P : PoolParams) (items : List (WorkItem × ItemEnv)) :
    PoolInv P items (initPool items) := by
  constructor
  · simp [initPool]
  · simp [initPool, totalLoad, runnerLoad, CONCURRENCY_LIMIT, List.replicate]
  · simp [initPool, buildMap]
  · intro hf
    simp [initPool, CONCURRENCY_LIMIT, List.replicate] at hf

/-- Invariant preservation for a step that only swaps runner `i` for a
runner with the same load (and possibly bumps counters not mentioned by the
invariant). -/
theorem poolInv_setRunner {P : PoolParams} {items : List (WorkItem × ItemEnv)} {s : PoolState}
    (hInv : PoolInv P items s) {i : Nat} (a b : RunnerState)
    (h : s.runners[i]? = some a) (hload : runnerLoad b = runnerLoad a)
    (hnf : b = RunnerState.finished → s.taskQueue = [])
    {s' : PoolState} (hq : s'.taskQueue = s.taskQueue) (hr : s'.runners = s.runners.set i b)
    (hm : s'.resultsMap = s.resultsMap) (hp : s'.processed = s.processed) :
    PoolInv P items s' := by
  have hts := totalLoad_set s.runners i a b h
  rw [← hload] at hts
  have htl : totalLoad (s.runners.set i b) = totalLoad s.runners := add_right_cancel hts
  constructor
  · rw [hr, List.length_set]; exact hInv.runnersLen
  · rw [hq, hp, hr, htl]; exact hInv.accounting
  · rw [hm, hp]; exact hInv.mapBuilt
  · rw [hr, hq]
    intro hf
    rcases List.mem_or_eq_of_mem_set hf with hf' | rfl
    · exact hInv.finishedEmpty hf'
    · exact hnf rfl

/-- Invariant preservation for a `writeResult` step: runner `i` moves from a
loaded state to an unloaded one, and its item's record is appended to the
map and the write log. -/
theorem poolInv_write {P : PoolParams} {items : List (WorkItem × ItemEnv)} {s : PoolState}
    (hInv : PoolInv P items s) {i : Nat} (a next : RunnerState) {it : WorkItem} {env : ItemEnv}
    {t : Nat} (h : s.runners[i]? = some a) (hla : runnerLoad a = {(it, env)})
    (hlb : runnerLoad next = 0) (hnf : next ≠ RunnerState.finished) :
    PoolInv P items (writeResult P s i it env t next) := by
  have hts := totalLoad_set s.runners i a next h
  rw [hla, hlb, add_zero] at hts
  constructor
  · simp [writeResult, List.length_set, hInv.runnersLen]
  · show (items : Multiset (WorkItem × ItemEnv)) =
      ↑s.taskQueue + totalLoad (s.runners.set i next) +
        ↑((s.processed ++ [((it, env), t)]).map Prod.fst)
    rw [hInv.accounting, ← hts]
    rw [List.map_append]
    rw [← Multiset.coe_add]
    simp only [List.map_cons, List.map_nil, Multiset.coe_singleton]
    abel
  · show setKey s.resultsMap it.url (recordOf P it env t) =
      buildMap P (s.processed ++ [((it, env), t)])
    rw [buildMap_append_one, hInv.mapBuilt]
  · show RunnerState.finished ∈ s.runners.set i next → s.taskQueue = []
    intro hf
    rcases List.mem_or_eq_of_mem_set hf with hf' | rfl
    · exact hInv.finishedEmpty hf'
    · exact absurd rfl hnf

theorem poolInv_step (P : PoolParams) (items : List (WorkItem × ItemEnv)) (s : PoolState)
    (i : Nat) (hInv : PoolInv P items s) : PoolInv P items (stepRunner P s i) := by
  cases h : s.runners[i]? with
  | none => simpa [stepRunner, h] using hInv
  | some r =>
    have hstep : stepRunner P s i = runnerStep P s i r := by simp [stepRunner, h]
    rw [hstep]
    cases r with
    | finished => exact hInv
    | checking =>
      show PoolInv P items (checkingStep s i)
      cases hq : s.taskQueue with
      | nil =>
        refine poolInv_setRunner hInv RunnerState.checking RunnerState.finished h rfl
          (fun _ => hq) ?_ ?_ ?_ ?_ <;> simp [checkingStep, hq]
      | cons e rest =>
        obtain ⟨it, env⟩ := e
        have hInv' : PoolInv P items
            { s with taskQueue := rest,
                     runners := s.runners.set i (RunnerState.working it env Stage.creating) } := by
          have hts := totalLoad_set s.runners i RunnerState.checking
            (RunnerState.working it env Stage.creating) h
          simp only [runnerLoad, add_zero] at hts
          constructor
          · simp [List.length_set, hInv.runnersLen]
          · show (items : Multiset (WorkItem × ItemEnv)) =
              ↑rest + totalLoad (s.runners.set i (RunnerState.working it env Stage.creating)) +
                ↑(s.processed.map Prod.fst)
            rw [hInv.accounting, hq, hts, ← Multiset.cons_coe]
            simp only [← Multiset.singleton_add]
            abel
          · exact hInv.mapBuilt
          · intro hf
            rcases List.mem_or_eq_of_mem_set hf with hf' | hf'
            · exact absurd (hInv.finishedEmpty hf') (by simp [hq])
            · exact absurd hf' (by simp)
        simpa [checkingStep, hq] using hInv'
    | working it env st =>
      cases st with
      | creating =>
        show PoolInv P items (creatingStep P s i it env)
        cases ho : env.outcome with
        | createFail m =>
          simp only [creatingStep, ho]
          exact poolInv_write hInv _ _ h rfl rfl (by simp)
        | createNoId =>
          simp only [creatingStep, ho]
          exact poolInv_write hInv _ _ h rfl rfl (by simp)
        | loadTimeout =>
          refine poolInv_setRunner hInv _ (RunnerState.working it env (Stage.loading s.nextTabId))
            h rfl (by simp) ?_ ?_ ?_ ?_ <;> simp [creatingStep, ho]
        | injectFail m =>
          refine poolInv_setRunner hInv _ (RunnerState.working it env (Stage.loading s.nextTabId))
            h rfl (by simp) ?_ ?_ ?_ ?_ <;> simp [creatingStep, ho]
        | corrTimeout =>
          refine poolInv_setRunner hInv _ (RunnerState.working it env (Stage.loading s.nextTabId))
            h rfl (by simp) ?_ ?_ ?_ ?_ <;> simp [creatingStep, ho]
        | success m =>
          refine poolInv_setRunner hInv _ (RunnerState.working it env (Stage.loading s.nextTabId))
            h rfl (by simp) ?_ ?_ ?_ ?_ <;> simp [creatingStep, ho]
      | loading t =>
        show PoolInv P items (loadingStep P s i it env t)
        cases ho : env.outcome with
        | loadTimeout =>
          simp only [loadingStep, ho]
          exact poolInv_write hInv _ _ h rfl rfl (by simp)
        | createFail m =>
          refine poolInv_setRunner hInv _ (RunnerState.working it env (Stage.injecting t))
            h rfl (by simp) ?_ ?_ ?_ ?_ <;> simp [loadingStep, ho]
        | createNoId =>
          refine poolInv_setRunner hInv _ (RunnerState.working it env (Stage.injecting t))
            h rfl (by simp) ?_ ?_ ?_ ?_ <;> simp [loadingStep, ho]
        | injectFail m =>
          refine poolInv_setRunner hInv _ (RunnerState.working it env (Stage.injecting t))
            h rfl (by simp) ?_ ?_ ?_ ?_ <;> simp [loadingStep, ho]
        | corrTimeout =>
          refine poolInv_setRunner hInv _ (RunnerState.working it env (Stage.injecting t))
            h rfl (by simp) ?_ ?_ ?_ ?_ <;> simp [loadingStep, ho]
        | success m =>
          refine poolInv_setRunner hInv _ (RunnerState.working it env (Stage.injecting t))
            h rfl (by simp) ?_ ?_ ?_ ?_ <;> simp [loadingStep, ho]
      | injecting t =>
        show PoolInv P items (injectingStep P s i it env t)
        cases ho : env.outcome with
        | injectFail m =>
          simp only [injectingStep, ho]
          exact poolInv_write hInv _ _ h rfl rfl (by simp)
        | createFail m =>
          refine poolInv_setRunner hInv _ (RunnerState.working it env (Stage.awaitingMsg t))
            h rfl (by simp) ?_ ?_ ?_ ?_ <;> simp [injectingStep, ho]
        | createNoId =>
          refine poolInv_setRunner hInv _ (RunnerState.working it env (Stage.awaitingMsg t))
            h rfl (by simp) ?_ ?_ ?_ ?_ <;> simp [injectingStep, ho]
        | loadTimeout =>
          refine poolInv_setRunner hInv _ (RunnerState.working it env (Stage.awaitingMsg t))
            h rfl (by simp) ?_ ?_ ?_ ?_ <;> simp [injectingStep, ho]
        | corrTimeout =>
          refine poolInv_setRunner hInv _ (RunnerState.working it env (Stage.awaitingMsg t))
            h rfl (by simp) ?_ ?_ ?_ ?_ <;> simp [injectingStep, ho]
        | success m =>
          refine poolInv_setRunner hInv _ (RunnerState.working it env (Stage.awaitingMsg t))
            h rfl (by simp) ?_ ?_ ?_ ?_ <;> simp [injectingStep, ho]
      | awaitingMsg t =>
        show PoolInv P items (awaitingStep P s i it env t)
        exact poolInv_write hInv _ _ h rfl rfl (by simp)
      | removing t =>
        show PoolInv P items (removingStep s i)
        refine poolInv_setRunner hInv _ RunnerState.checking h rfl (by simp) ?_ ?_ ?_ ?_ <;>
          simp [removingStep]

theorem poolInv_run (P : PoolParams) (items : List (WorkItem × ItemEnv)) (s : PoolState)
    (sched : List Nat) (hInv : PoolInv P items s) : PoolInv P items (runPool P s sched) := by
  induction sched generalizing s with
  | nil => exact hInv
  | cons i rest ih => exact ih _ (poolInv_step P items s i hInv)

theorem poolInv_reachable (P : PoolParams) (items : List (WorkItem × ItemEnv))
    (sched : List Nat) : PoolInv P items (runPool P (initPool items) sched) :=
  poolInv_run P items _ sched (poolInv_init P items)

theorem totalLoad_eq_zero (rs : List RunnerState) (h : ∀ r ∈ rs, r = RunnerState.finished) :
    totalLoad rs = 0 := by
  induction rs with
  | nil => rfl
  | cons x xs ih =>
    have hx := h x (by simp)
    subst hx
    simp only [totalLoad, List.map_cons, List.sum_cons] at *
    rw [ih (fun r hr => h r (by simp [hr]))]
    rfl

theorem taskQueue_nil_of_allFinished {P : PoolParams} {items : List (WorkItem × ItemEnv)}
    {s : PoolState} (hInv : PoolInv P items s) (hfin : AllFinished s) : s.taskQueue = [] := by
  have hne : s.runners ≠ [] := by
    intro hnil
    have := hInv.runnersLen
    rw [hnil] at this
    simp [CONCURRENCY_LIMIT] at this
  obtain ⟨r, hr⟩ := List.exists_mem_of_ne_nil s.runners hne
  exact hInv.finishedEmpty (by rw [← hfin r hr]; exact hr)

/-- In a completed run every initial item was processed exactly once: the
write log is a permutation of the input batch. -/
theorem processed_perm_of_terminal {P : PoolParams} {items : List (WorkItem × ItemEnv)}
    {s : PoolState} (hInv : PoolInv P items s) (hfin : AllFinished s) :
    (s.processed.map Prod.fst).Perm items := by
  have hq := taskQueue_nil_of_allFinished hInv hfin
  have hload := totalLoad_eq_zero s.runners hfin
  have hacc := hInv.accounting
  rw [hq, hload] at hacc
  simp only [Multiset.coe_nil, zero_add, add_zero] at hacc
  exact (Multiset.coe_eq_coe.mp hacc).symm

theorem setKey_of_not_mem (m : List (String × ResultRecord)) (k : String) (v : ResultRecord)
    (h : k ∉ mapKeys m) : setKey m k v = m ++ [(k, v)] := by
  induction m with
  | nil => rfl
  | cons p rest ih =>
    simp only [mapKeys, List.map_cons, List.mem_cons] at h
    push_neg at h
    simp only [setKey, if_neg (Ne.symm h.1)]
    rw [ih (by simp [mapKeys, h.2])]
    simp

theorem mem_mapKeys_setKey (m : List (String × ResultRecord)) (k : String) (v : ResultRecord)
    (u : String) : u ∈ mapKeys (setKey m k v) ↔ u ∈ mapKeys m ∨ u = k := by
  induction m with
  | nil => simp [setKey, mapKeys]
  | cons p rest ih =>
    by_cases hk : p.1 = k
    · obtain ⟨k', v'⟩ := p
      simp only at hk
      subst hk
      have hset : setKey ((k', v') :: rest) k' v = (k', v) :: rest := by
        simp [setKey]
      rw [hset]
      simp only [mapKeys, List.map_cons, List.mem_cons]
      constructor
      · rintro (rfl | hu)
        · exact Or.inr rfl
        · exact Or.inl (Or.inr hu)
      · rintro ((rfl | hu) | rfl)
        · exact Or.inl rfl
        · exact Or.inr hu
        · exact Or.inl rfl
    · obtain ⟨k', v'⟩ := p
      simp only at hk
      simp only [setKey, if_neg hk, mapKeys, List.map_cons, List.mem_cons]
      rw [mapKeys] at ih
      rw [ih]
      tauto

/-- The pair appended to the results map by one item's write. -/
def writePair (P : PoolParams) (e : (WorkItem × ItemEnv) × Nat) : String × ResultRecord :=
  (e.1.1.url, recordOf P e.1.1 e.1.2 e.2)

theorem foldl_setKey_fresh (P : PoolParams) (ps : List ((WorkItem × ItemEnv) × Nat))
    (m : List (String × ResultRecord))
    (hfresh : ∀ e ∈ ps, e.1.1.url ∉ mapKeys m)
    (hnodup : (ps.map (fun e => e.1.1.url)).Nodup) :
    ps.foldl (fun m e => setKey m e.1.1.url (recordOf P e.1.1 e.1.2 e.2)) m =
      m ++ ps.map (writePair P) := by
  induction ps generalizing m with
  | nil => simp
  | cons e rest ih =>
    simp only [List.foldl_cons, List.map_cons]
    rw [setKey_of_not_mem m e.1.1.url _ (hfresh e (by simp))]
    simp only [List.map_cons, List.nodup_cons] at hnodup
    rw [ih (m ++ [(e.1.1.url, recordOf P e.1.1 e.1.2 e.2)]) ?_ hnodup.2]
    · simp [writePair]
    · intro e' he'
      simp only [mapKeys, List.map_append, List.mem_append, List.map_cons, List.map_nil,
        List.mem_cons, List.not_mem_nil, or_false]
      push_neg
      refine ⟨?_, ?_⟩
      · exact hfresh e' (by simp [he'])
      · intro hurl
        exact hnodup.1 (hurl ▸ List.mem_map_of_mem (fun e => e.1.1.url) he')

/-- With pairwise-distinct item urls, the final map is literally the list of
per-item pairs in write order. -/
theorem buildMap_eq_map_of_nodup (P : PoolParams) (ps : List ((WorkItem × ItemEnv) × Nat))
    (hnodup : (ps.map (fun e => e.1.1.url)).Nodup) :
    buildMap P ps = ps.map (writePair P) := by
  have := foldl_setKey_fresh P ps [] (by simp [mapKeys]) hnodup
  simpa [buildMap] using this

theorem mem_mapKeys_foldl (P : PoolParams) (ps : List ((WorkItem × ItemEnv) × Nat))
    (m : List (String × ResultRecord)) (u : String) (hu : u ∈ mapKeys m) :
    u ∈ mapKeys (ps.foldl (fun m e => setKey m e.1.1.url (recordOf P e.1.1 e.1.2 e.2)) m) := by
  induction ps generalizing m with
  | nil => exact hu
  | cons e rest ih =>
    simp only [List.foldl_cons]
    exact ih _ ((mem_mapKeys_setKey m e.1.1.url _ u).mpr (Or.inl hu))

theorem url_mem_keys_foldl (P : PoolParams) (ps : List ((WorkItem × ItemEnv) × Nat))
    (m : List (String × ResultRecord)) (e : (WorkItem × ItemEnv) × Nat) (he : e ∈ ps) :
    e.1.1.url ∈
      mapKeys (ps.foldl (fun m e => setKey m e.1.1.url (recordOf P e.1.1 e.1.2 e.2)) m) := by
  induction ps generalizing m with
  | nil => cases he
  | cons x rest ih =>
    rcases List.mem_cons.mp he with rfl | he'
    · simp only [List.foldl_cons]
      exact mem_mapKeys_foldl P rest _ _
        ((mem_mapKeys_setKey _ _ _ _).mpr (Or.inr rfl))
    · simp only [List.foldl_cons]
      exact ih _ he'

/-- Every processed item has an entry under its url in the final map, with
or without duplicate urls in the batch. -/
theorem url_mem_keys_buildMap (P : PoolParams) (ps : List ((WorkItem × ItemEnv) × Nat))
    (e : (WorkItem × ItemEnv) × Nat) (he : e ∈ ps) :
    e.1.1.url ∈ mapKeys (buildMap P ps) :=
  url_mem_keys_foldl P ps [] e he

/-- Invariant for a run on the empty batch: nothing is ever queued, created,
registered or written, and every runner is at the loop check or returned. -/
def EmptyPoolInv (s : PoolState) : Prop :=
  s.taskQueue = [] ∧ s.resultsMap = [] ∧ s.tabsCreated = 0 ∧ s.corrRegistered = 0 ∧
    s.processed = [] ∧ ∀ r ∈ s.runners, r = RunnerState.checking ∨ r = RunnerState.finished

theorem emptyPoolInv_step (P : PoolParams) (s : PoolState) (i : Nat)
    (h : EmptyPoolInv s) : EmptyPoolInv (stepRunner P s i) := by
  obtain ⟨hq, hm, ht, hc, hp, hr⟩ := h
  cases hri : s.runners[i]? with
  | none => simpa [stepRunner, hri] using ⟨hq, hm, ht, hc, hp, hr⟩
  | some r =>
    have hmem : r ∈ s.runners := List.getElem?_mem hri
    rcases hr r hmem with rfl | rfl
    · simp only [stepRunner, hri, runnerStep, checkingStep, hq]
      refine ⟨rfl, hm, ht, hc, hp, ?_⟩
      intro r' hr'
      rcases List.mem_or_eq_of_mem_set hr' with h' | rfl
      · exact hr r' h'
      · exact Or.inr rfl
    · simp only [stepRunner, hri, runnerStep]
      exact ⟨hq, hm, ht, hc, hp, hr⟩

theorem emptyPoolInv_run (P : PoolParams) (s : PoolState) (sched : List Nat)
    (h : EmptyPoolInv s) : EmptyPoolInv (runPool P s sched) := by
  induction sched generalizing s with
  | nil => exact h
  | cons i rest ih => exact ih _ (emptyPoolInv_step P s i h)

/-- The `fetchItemDetails` message handler's guard (background.js lines
372–377): on a batch of zero items it responds `{ status: "success",
details: {} }` synchronously, before any pool machinery runs; otherwise it
defers to `fetchAllDetailsViaTabs`. -/
def fetchItemDetailsEarlyResponse (items : List WorkItem) :
    Option (String × List (String × ResultRecord)) :=
  if items.length = 0 then some ("success", []) else none

/-- State of the single correlation promise `resultPromise` (background.js
lines 147–162): whether the `chrome.runtime.onMessage` listener is still
registered, whether the 14 s timer is still pending, how the promise
settled (if it did), and how many times `resolve`/`reject` have been
invoked. -/
structure CorrState where
  listenerActive : Bool
  timerActive : Bool
  result : Option (Option String)
  settleCount : Nat
deriving DecidableEq, Repr

/-- Fresh correlation: listener registered, timer armed, promise pending.
`result = some (some ty)` later records a resolution with a message of type
`ty`; `result = some none` records the timeout rejection. -/
def corrInit : CorrState :=
  { listenerActive := true, timerActive := true, result := none, settleCount := 0 }

/-- An event observed by the correlation machinery: an inbound runtime
message (with the sender's tab id, if any, and its `type` field), or the
firing of the deadline timer. -/
inductive CorrEvent
  | msgArrive (senderTabId : Option Nat) (msgType : String)
  | timerFire
deriving DecidableEq, Repr

/-- The `expectedResponseType` of the correlation (background.js line 152). -/
def expectedResponseType (ty : ItemType) : String :=
  match ty with
  | ItemType.note => "noteScrapeResult"
  | ItemType.email => "emailScrapeResult"

/-- The listener's match condition (background.js line 154):
`sender.tab?.id === tempTabId && message.type === expectedResponseType`. -/
def corrMatches (tempTabId : Nat) (expected : String) : CorrEvent → Bool
  | CorrEvent.msgArrive sid ty => sid = some tempTabId && ty = expected
  | CorrEvent.timerFire => false

/-- One event processed by the correlation (the JavaScript event loop runs
each handler to completion, so this is atomic).  A matching message while
the listener is registered clears the timer, deregisters the listener and
resolves; the timer firing while armed deregisters the listener and rejects;
everything else — in particular any message after the listener was removed —
leaves the state untouched. -/
def corrStep (tempTabId : Nat) (expected : String) (s : CorrState) (e : CorrEvent) : CorrState :=
  match e with
  | CorrEvent.msgArrive sid ty =>
    if s.listenerActive && corrMatches tempTabId expected (CorrEvent.msgArrive sid ty) then
      { listenerActive := false, timerActive := false,
        result := some (some ty), settleCount := s.settleCount + 1 }
    else s
  | CorrEvent.timerFire =>
    if s.timerActive then
      { listenerActive := false, timerActive := false,
        result := some none, settleCount := s.settleCount + 1 }
    else s

/-- A whole observed event sequence applied to a fresh correlation. -/
def corrRun (tempTabId : Nat) (expected : String) (events : List CorrEvent) : CorrState :=
  events.foldl (corrStep tempTabId expected) corrInit

/-- Internal consistency of a correlation state: the settle counter agrees
with the settlement, and settling deregistered both the listener and the
timer (while a pending correlation has both active). -/
def CorrConsistent (s : CorrState) : Prop :=
  (s.settleCount = if s.result.isSome then 1 else 0) ∧
    (s.result.isSome → s.listenerActive = false ∧ s.timerActive = false) ∧
    (s.result = none → s.listenerActive = true ∧ s.timerActive = true)

theorem corrConsistent_step (tempTabId : Nat) (expected : String) (s : CorrState)
    (e : CorrEvent) (h : CorrConsistent s) :
    CorrConsistent (corrStep tempTabId expected s e) := by
  obtain ⟨hcount, hsettled, hpending⟩ := h
  cases e with
  | msgArrive sid ty =>
    by_cases hc : s.listenerActive && corrMatches tempTabId expected (CorrEvent.msgArrive sid ty)
    · have hres : s.result = none := by
        cases hres : s.result with
        | none => rfl
        | some v =>
          have := (hsettled (by rw [hres]; exact rfl)).1
          rw [Bool.and_eq_true] at hc
          rw [this] at hc
          exact absurd hc.1 (by simp)
      simp only [corrStep, if_pos hc]
      rw [hres] at hcount
      simp only [Option.isSome_none, Bool.false_eq_true, if_false] at hcount
      exact ⟨by simp [hcount], by simp, by simp⟩
    · simpa only [corrStep, if_neg hc] using ⟨hcount, hsettled, hpending⟩
  | timerFire =>
    by_cases hc : s.timerActive = true
    · have hres : s.result = none := by
        cases hres : s.result with
        | none => rfl
        | some v =>
          have := (hsettled (by rw [hres]; exact rfl)).2
          rw [this] at hc
          exact absurd hc (by simp)
      simp only [corrStep, if_pos hc]
      rw [hres] at hcount
      simp only [Option.isSome_none, Bool.false_eq_true, if_false] at hcount
      exact ⟨by simp [hcount], by simp, by simp⟩
    · simp only [corrStep, if_neg hc]
      exact ⟨hcount, hsettled, hpending⟩

theorem corrConsistent_foldl (tempTabId : Nat) (expected : String) (events : List CorrEvent)
    (s : CorrState) (h : CorrConsistent s) :
    CorrConsistent (events.foldl (corrStep tempTabId expected) s) := by
  induction events generalizing s with
  | nil => exact h
  | cons e rest ih => exact ih _ (corrConsistent_step tempTabId expected s e h)

theorem corrConsistent_run (tempTabId : Nat) (expected : String) (events : List CorrEvent) :
    CorrConsistent (corrRun tempTabId expected events) :=
  corrConsistent_foldl tempTabId expected events corrInit
    ⟨rfl, by simp [corrInit], by simp [corrInit]⟩

/-- The coordinator's scheduling decision for the two sibling pools
(background.js lines 334–348): with `totalItems <= 5` the notes pool and the
emails pool run concurrently under `Promise.all`; otherwise the notes pool
is awaited to completion before the emails pool starts. -/
inductive FetchSchedulePolicy
  | parallelPools
  | sequentialPools
deriving DecidableEq, Repr

/-- Decision of the `startFullViewGeneration` handler:
`const totalItems = notesToFetch.length + emailsToFetch.length;
if (totalItems <= 5) ... parallel ... else ... sequential`. -/
def chooseFetchSchedule (notesToFetch emailsToFetch : List WorkItem) : FetchSchedulePolicy :=
  let totalItems := notesToFetch.length + emailsToFetch.length
  if totalItems ≤ 5 then FetchSchedulePolicy.parallelPools
  else FetchSchedulePolicy.sequentialPools

/-- The merge of the two pools' maps (background.js line 352):
`[...Object.values(noteDetailsMap), ...Object.values(emailDetailsMap)]`
(`Object.values` enumerates string keys in insertion order, which is the
order our association lists keep). -/
def mergeDetailMaps (noteDetailsMap emailDetailsMap : List (String × ResultRecord)) :
    List ResultRecord :=
  noteDetailsMap.map Prod.snd ++ emailDetailsMap.map Prod.snd

/-- Numeric value `new Date(item.dateObject).getTime()` used by the sort
comparator; `getTime` itself is environment semantics, abstracted as the
parameter `dv`.  Items reaching the comparator always have a `dateObject`
(they passed the validity filter), so the `none` branch is unreachable. -/
def dateObjectTime (dv : JSDate → Int) (r : ResultRecord) : Int :=
  match r.dateObject with
  | some d => dv d
  | none => 0

/-- Comparator order of `(a, b) => new Date(a.dateObject) - new Date(b.dateObject)`. -/
def timelineLE (dv : JSDate → Int) (a b : ResultRecord) : Prop :=
  dateObjectTime dv a ≤ dateObjectTime dv b

instance (dv : JSDate → Int) : DecidableRel (timelineLE dv) :=
  fun a b => inferInstanceAs (Decidable (dateObjectTime dv a ≤ dateObjectTime dv b))

/-- The item-validity filter of `buildFullViewHtml` (background.js line 523):
`item.dateObject && !isNaN(new Date(item.dateObject).getTime())`.  Every
`dateObject` in a `ResultRecord` comes from `parseDateString` or
`new Date()`, none of which produce an invalid date, so the filter reduces
to the presence of `dateObject`. -/
def isValidTimelineItem (r : ResultRecord) : Bool :=
  r.dateObject.isSome

/-- The per-item observable content of the generated full-view document
(background.js lines 519–588 and 678): the aggregate counts shown in the
timeline header, and `validTimelineItems` — the only per-item sequence
rendered — sorted ascending by date.  The comparison sort is modelled by
`insertionSort` over the comparator's order (an arbitrary comparison sort
produces a sorted permutation of its input, which is all the development
relies on). -/
structure TimelineView where
  totalCount : Nat
  noteCount : Nat
  emailCount : Nat
  entries : List ResultRecord
deriving DecidableEq, Repr

/-- Assembly of the timeline section of `buildFullViewHtml`. -/
def buildTimelineView (dv : JSDate → Int) (timelineItems : List ResultRecord) : TimelineView :=
  let processedNotes := timelineItems.filter (fun i => i.type = ItemType.note)
  let processedEmails := timelineItems.filter (fun i => i.type = ItemType.email)
  let validTimelineItems := timelineItems.filter isValidTimelineItem
  { totalCount := timelineItems.length,
    noteCount := processedNotes.length,
    emailCount := processedEmails.length,
    entries := List.insertionSort (timelineLE dv) validTimelineItems }

/-- Sample scrape message with every field absent. -/
def sampleMsg : ScrapeMsg :=
  { title := none, author := none, description := none, isPublic := none,
    subject := none, fromAddr := none, bodyHTML := none, toRecipients := none }

/-- Sample environment: the happy path. -/
def sampleEnvOk : ItemEnv := { outcome := FetchOutcome.success sampleMsg, removeFails := false }

/-- Sample pool parameters: a Note batch with a failing `Date.parse` and a
fixed current time. -/
def sampleParams : PoolParams :=
  { itemType := ItemType.note, dateParse := fun _ => none, now := JSDate.fromMs 0 }

/-- A schedule that drives runner 0 through both items of a two-item batch
and then retires all four runners. -/
def seqSched : List Nat := [0, 0, 0, 0, 0, 0, 0, 0, 0, 0, 0, 0, 0, 1, 2, 3]

/-- A batch of two distinct work items. -/
def twoItems : List (WorkItem × ItemEnv) :=
  [({ url := "u1", dateStr := "" }, sampleEnvOk), ({ url := "u2", dateStr := "" }, sampleEnvOk)]

/-- A batch of two work items sharing one url. -/
def dupItems : List (WorkItem × ItemEnv) :=
  [({ url := "u", dateStr := "" }, sampleEnvOk), ({ url := "u", dateStr := "" }, sampleEnvOk)]

/-- An event that can settle the correlation: the deadline timer, or a
message passing the listener's match condition. -/
def corrQualifying (tempTabId : Nat) (expected : String) (e : CorrEvent) : Prop :=
  e = CorrEvent.timerFire ∨ corrMatches tempTabId expected e = true

theorem corrStep_isSome_mono (tempTabId : Nat) (expected : String) (s : CorrState)
    (e : CorrEvent) (h : s.result.isSome) :
    (corrStep tempTabId expected s e).result.isSome := by
  cases e with
  | msgArrive sid ty =>
    simp only [corrStep]
    split
    · simp
    · exact h
  | timerFire =>
    simp only [corrStep]
    split
    · simp
    · exact h

theorem corrFoldl_isSome_mono (tempTabId : Nat) (expected : String) (events : List CorrEvent)
    (s : CorrState) (h : s.result.isSome) :
    ((events.foldl (corrStep tempTabId expected) s).result).isSome := by
  induction events generalizing s with
  | nil => exact h
  | cons e rest ih => exact ih _ (corrStep_isSome_mono tempTabId expected s e h)

theorem corrStep_settles (tempTabId : Nat) (expected : String) (s : CorrState) (e : CorrEvent)
    (hcons : CorrConsistent s) (hq : corrQualifying tempTabId expected e) :
    (corrStep tempTabId expected s e).result.isSome := by
  cases hres : s.result with
  | some v =>
    exact corrStep_isSome_mono tempTabId expected s e (by rw [hres]; rfl)
  | none =>
    have hact := hcons.2.2 hres
    rcases hq with rfl | hmatch
    · simp only [corrStep, hact.2, if_pos rfl]
      rfl
    · cases e with
      | msgArrive sid ty =>
        simp only [corrStep, hact.1, hmatch, Bool.and_self, if_pos]
        rfl
      | timerFire =>
        simp only [corrStep, hact.2, if_pos rfl]
        rfl

theorem corrFoldl_settles (tempTabId : Nat) (expected : String) (events : List CorrEvent)
    (s : CorrState) (hcons : CorrConsistent s)
    (h : ∃ e ∈ events, corrQualifying tempTabId expected e) :
    ((events.foldl (corrStep tempTabId expected) s).result).isSome := by
  induction events generalizing s with
  | nil => obtain ⟨e, he, _⟩ := h; cases he
  | cons e rest ih =>
    obtain ⟨e', he', hq'⟩ := h
    rcases List.mem_cons.mp he' with rfl | hmem
    · exact corrFoldl_isSome_mono tempTabId expected rest _
        (corrStep_settles tempTabId expected s e' hcons hq')
    · exact ih _ (corrConsistent_step tempTabId expected s e hcons) ⟨e', hmem, hq'⟩

/-- C2: for every pending correlation (`resultPromise`, background.js lines
147–162) and every sequence of inbound messages and timer firings, the
waiter settles at most once; it settles exactly once as soon as the trace
contains the deadline timer or a matching message (whichever comes first);
and once settled, any further event — in particular a message arriving after
the timeout — leaves the correlation state unchanged. -/
theorem correlation_resolves_exactly_once (ty : ItemType) (tempTabId : Nat)
    (events : List CorrEvent) :
    (corrRun tempTabId (expectedResponseType ty) events).settleCount ≤ 1 ∧
    ((∃ e ∈ events, corrQualifying tempTabId (expectedResponseType ty) e) →
      (corrRun tempTabId (expectedResponseType ty) events).settleCount = 1) ∧
    (∀ e, (corrRun tempTabId (expectedResponseType ty) events).result.isSome →
      corrStep tempTabId (expectedResponseType ty)
        (corrRun tempTabId (expectedResponseType ty) events) e =
        corrRun tempTabId (expectedResponseType ty) events) := by
  have hcons := corrConsistent_run tempTabId (expectedResponseType ty) events
  have hinit : CorrConsistent corrInit := ⟨rfl, by simp [corrInit], by simp [corrInit]⟩
  refine ⟨?_, ?_, ?_⟩
  · rw [hcons.1]
    split <;> simp
  · intro hq
    have hsome : (corrRun tempTabId (expectedResponseType ty) events).result.isSome :=
      corrFoldl_settles tempTabId (expectedResponseType ty) events corrInit hinit hq
    rw [hcons.1, if_pos hsome]
  · intro e hsome
    have hinact := hcons.2.1 hsome
    cases e with
    | msgArrive sid ty' =>
      simp only [corrStep, hinact.1]
      simp
    | timerFire =>
      simp only [corrStep, hinact.2]
      simp

/-- Witness for C2 at a concrete trace: a matching message followed by the
timer firing settles the note correlation for tab 7 exactly once, and a
further late message is a no-op. -/
theorem correlation_resolves_exactly_once_witness :
    (corrRun 7 (expectedResponseType ItemType.note)
      [CorrEvent.msgArrive (some 7) "noteScrapeResult", CorrEvent.timerFire]).settleCount = 1 ∧
    corrStep 7 (expectedResponseType ItemType.note)
      (corrRun 7 (expectedResponseType ItemType.note)
        [CorrEvent.msgArrive (some 7) "noteScrapeResult", CorrEvent.timerFire])
      (CorrEvent.msgArrive (some 7) "noteScrapeResult") =
      corrRun 7 (expectedResponseType ItemType.note)
        [CorrEvent.msgArrive (some 7) "noteScrapeResult", CorrEvent.timerFire] := by
  have h := correlation_resolves_exactly_once ItemType.note 7
    [CorrEvent.msgArrive (some 7) "noteScrapeResult", CorrEvent.timerFire]
  exact ⟨h.2.1 ⟨CorrEvent.timerFire, by decide, Or.inl rfl⟩,
    h.2.2 (CorrEvent.msgArrive (some 7) "noteScrapeResult") (by decide)⟩

/-- C3: in `processNextItem` (background.js lines 200–208) the `finally`
block invokes `chrome.tabs.remove` exactly once when a tab with an id was
acquired and never otherwise; every path that gets past tab creation —
readiness-wait timeout, injection failure, correlation timeout and normal
completion — releases; and a failing removal is caught inside the `finally`
(the observable outcome of the pipeline does not depend on whether the
removal throws). -/
theorem release_invoked_exactly_once (P : PoolParams) (tabId : Nat) (it : WorkItem)
    (env : ItemEnv) :
    ((processNextItem P tabId it env).releaseCount =
      if (processNextItem P tabId it env).tabAcquired then 1 else 0) ∧
    ((env.outcome = FetchOutcome.loadTimeout ∨ (∃ m, env.outcome = FetchOutcome.injectFail m) ∨
        env.outcome = FetchOutcome.corrTimeout ∨ (∃ m, env.outcome = FetchOutcome.success m)) →
      (processNextItem P tabId it env).tabAcquired = true ∧
      (processNextItem P tabId it env).releaseCount = 1) ∧
    (∀ b, processNextItem P tabId it { outcome := env.outcome, removeFails := b } =
      processNextItem P tabId it env) := by
  obtain ⟨o, rf⟩ := env
  refine ⟨?_, ?_, ?_⟩
  · cases o <;> rfl
  · intro h
    simp only at h
    rcases h with h | ⟨m, h⟩ | h | ⟨m, h⟩ <;> subst h <;> exact ⟨rfl, rfl⟩
  · intro b
    rfl

/-- Witness for C3 at a concrete input: on a correlation timeout the tab was
acquired and released exactly once. -/
theorem release_invoked_exactly_once_witness :
    (processNextItem sampleParams 3 { url := "u", dateStr := "" }
      { outcome := FetchOutcome.corrTimeout, removeFails := true }).tabAcquired = true ∧
    (processNextItem sampleParams 3 { url := "u", dateStr := "" }
      { outcome := FetchOutcome.corrTimeout, removeFails := true }).releaseCount = 1 :=
  (release_invoked_exactly_once sampleParams 3 { url := "u", dateStr := "" }
    { outcome := FetchOutcome.corrTimeout, removeFails := true }).2.1
    (Or.inr (Or.inr (Or.inl rfl)))

/-- C4: at every reachable point of a `fetchAllDetailsViaTabs` run — i.e.
after any schedule of runner interleavings — the number of pipelines that
have acquired their temporary tab and not yet completed its release never
exceeds `CONCURRENCY_LIMIT` (4): there are only `CONCURRENCY_LIMIT` runners
and each processes one item at a time. -/
theorem pool_concurrency_bounded (P : PoolParams) (items : List (WorkItem × ItemEnv))
    (sched : List Nat) :
    tabsHeld (runPool P (initPool items) sched) ≤ CONCURRENCY_LIMIT := by
  have hInv := poolInv_reachable P items sched
  exact le_trans (List.countP_le_length holdsTab) (le_of_eq hInv.runnersLen)

/-- C5: the `startFullViewGeneration` coordinator (background.js lines
334–348) runs the notes pool and the emails pool concurrently exactly when
`notesToFetch.length + emailsToFetch.length <= 5`, and strictly
sequentially exactly when the total exceeds 5. -/
theorem coordinator_threshold (notesToFetch emailsToFetch : List WorkItem) :
    (chooseFetchSchedule notesToFetch emailsToFetch = FetchSchedulePolicy.parallelPools ↔
      notesToFetch.length + emailsToFetch.length ≤ 5) ∧
    (chooseFetchSchedule notesToFetch emailsToFetch = FetchSchedulePolicy.sequentialPools ↔
      5 < notesToFetch.length + emailsToFetch.length) := by
  by_cases h : notesToFetch.length + emailsToFetch.length ≤ 5
  all_goals constructor
  all_goals simp [chooseFetchSchedule, h]
  all_goals omega

/-- Witness for C5 at concrete batches: one item is fetched with the pools
in parallel, six items sequentially. -/
theorem coordinator_threshold_witness :
    chooseFetchSchedule [{ url := "n1", dateStr := "" }] [] =
      FetchSchedulePolicy.parallelPools ∧
    chooseFetchSchedule (List.replicate 6 { url := "n", dateStr := "" }) [] =
      FetchSchedulePolicy.sequentialPools :=
  ⟨(coordinator_threshold [{ url := "n1", dateStr := "" }] []).1.mpr (by decide),
   (coordinator_threshold (List.replicate 6 { url := "n", dateStr := "" }) []).2.mpr (by decide)⟩

/-- C8: on an empty batch the `fetchItemDetails` handler responds
`{ status: "success", details: {} }` immediately (background.js lines
372–377), and in the pool machine started on an empty queue no schedule can
ever create a tab, register a correlation listener, or write a result: the
runners all return at their first loop check. -/
theorem empty_batch_immediate (P : PoolParams) (sched : List Nat) :
    fetchItemDetailsEarlyResponse [] = some ("success", []) ∧
    (runPool P (initPool []) sched).resultsMap = [] ∧
    (runPool P (initPool []) sched).tabsCreated = 0 ∧
    (runPool P (initPool []) sched).corrRegistered = 0 := by
  have hinv : EmptyPoolInv (initPool ([] : List (WorkItem × ItemEnv))) := by
    refine ⟨rfl, rfl, rfl, rfl, rfl, ?_⟩
    intro r hr
    exact Or.inl (List.eq_of_mem_replicate hr)
  have h := emptyPoolInv_run P (initPool []) sched hinv
  exact ⟨rfl, h.2.1, h.2.2.1, h.2.2.2.1⟩

/-- C1 (amended to batches whose work items carry pairwise-distinct urls):
whenever a run of the pool completes, `resultsMap` holds exactly one entry
per work item — as many entries as items, keyed by exactly the item urls —
and every entry is the record `processNextItem` computed for its item
(success or error). -/
theorem pool_one_entry_per_item (P : PoolParams) (items : List (WorkItem × ItemEnv))
    (sched : List Nat)
    (hnodup : (items.map (fun e => e.1.url)).Nodup)
    (hfin : AllFinished (runPool P (initPool items) sched)) :
    (runPool P (initPool items) sched).resultsMap.length = items.length ∧
    ((runPool P (initPool items) sched).resultsMap.map Prod.fst).Perm
      (items.map (fun e => e.1.url)) ∧
    ∀ p ∈ (runPool P (initPool items) sched).resultsMap,
      ∃ ie ∈ items, ∃ t : Nat, p = (ie.1.url, recordOf P ie.1 ie.2 t) := by
  have hInv := poolInv_reachable P items sched
  have hperm : ((runPool P (initPool items) sched).processed.map Prod.fst).Perm items :=
    processed_perm_of_terminal hInv hfin
  have hpermUrl : ((runPool P (initPool items) sched).processed.map
      (fun e => e.1.1.url)).Perm (items.map (fun e => e.1.url)) := by
    have := hperm.map (fun e => e.1.url)
    simpa [List.map_map, Function.comp] using this
  have hnodup' : ((runPool P (initPool items) sched).processed.map
      (fun e => e.1.1.url)).Nodup := hnodup.perm hpermUrl.symm
  have hmap : (runPool P (initPool items) sched).resultsMap =
      (runPool P (initPool items) sched).processed.map (writePair P) := by
    rw [hInv.mapBuilt]
    exact buildMap_eq_map_of_nodup P _ hnodup'
  refine ⟨?_, ?_, ?_⟩
  · rw [hmap, List.length_map]
    have := hperm.length_eq
    simpa using this
  · rw [hmap]
    have hfst : ((runPool P (initPool items) sched).processed.map (writePair P)).map Prod.fst =
        (runPool P (initPool items) sched).processed.map (fun e => e.1.1.url) := by
      simp [List.map_map, writePair, Function.comp]
    rw [hfst]
    exact hpermUrl
  · intro p hp
    rw [hmap] at hp
    obtain ⟨e, he, rfl⟩ := List.mem_map.mp hp
    have hmem : e.1 ∈ (runPool P (initPool items) sched).processed.map Prod.fst :=
      List.mem_map_of_mem Prod.fst he
    exact ⟨e.1, hperm.mem_iff.mp hmem, e.2, rfl⟩

/-- Witness for C1's amended theorem on a concrete two-item batch with
distinct urls, run to completion by a concrete schedule. -/
theorem pool_one_entry_per_item_witness :
    (runPool sampleParams (initPool twoItems) seqSched).resultsMap.length = twoItems.length ∧
    ((runPool sampleParams (initPool twoItems) seqSched).resultsMap.map Prod.fst).Perm
      (twoItems.map (fun e => e.1.url)) :=
  ⟨(pool_one_entry_per_item sampleParams twoItems seqSched (by decide) (by decide)).1,
   (pool_one_entry_per_item sampleParams twoItems seqSched (by decide) (by decide)).2.1⟩

/-- Counterexample to C1 as stated (over all batches): a completed run on a
batch of two work items sharing the url `"u"` ends with one entry in
`resultsMap`, not two — `resultsMap[itemUrl] = ...` collapses duplicate
keys, so "exactly k entries, never fewer" fails. -/
theorem pool_one_entry_per_item_counterexample :
    AllFinished (runPool sampleParams (initPool dupItems) seqSched) ∧
    dupItems.length = 2 ∧
    (runPool sampleParams (initPool dupItems) seqSched).resultsMap.length = 1 := by
  decide

/-- C6: any failure inside the single-item pipeline — tab creation, missing
tab id, readiness timeout, injection failure, correlation timeout — is
caught at the pipeline boundary (`catch`, background.js lines 197–199) and
converted into an error record carrying that error's message for that item;
and no matter which environments the items get, a completed pool run still
has an entry for every item of the batch: one item's failure never aborts
the pool or drops a sibling. -/
theorem per_item_failure_isolated :
    (∀ (P : PoolParams) (tabId : Nat) (it : WorkItem) (env : ItemEnv),
      (∀ m, env.outcome ≠ FetchOutcome.success m) →
      ∃ errMsg, (tryBody P tabId it env).2 = Except.error errMsg ∧
        (processNextItem P tabId it env).record =
          mkErrorRecord P.itemType P.dateParse P.now it errMsg) ∧
    (∀ (P : PoolParams) (items : List (WorkItem × ItemEnv)) (sched : List Nat),
      AllFinished (runPool P (initPool items) sched) →
      ∀ ie ∈ items, ie.1.url ∈ mapKeys (runPool P (initPool items) sched).resultsMap) := by
  constructor
  · intro P tabId it env hfail
    obtain ⟨o, rf⟩ := env
    cases o with
    | success m => exact absurd rfl (hfail m)
    | createFail m => exact ⟨m, rfl, rfl⟩
    | createNoId => exact ⟨_, rfl, rfl⟩
    | loadTimeout => exact ⟨_, rfl, rfl⟩
    | injectFail m => exact ⟨m, rfl, rfl⟩
    | corrTimeout => exact ⟨_, rfl, rfl⟩
  · intro P items sched hfin ie hie
    have hInv := poolInv_reachable P items sched
    have hperm := processed_perm_of_terminal hInv hfin
    have hmem : ie ∈ (runPool P (initPool items) sched).processed.map Prod.fst :=
      hperm.mem_iff.mpr hie
    obtain ⟨e, he, hfst⟩ := List.mem_map.mp hmem
    rw [hInv.mapBuilt]
    have hkey := url_mem_keys_buildMap P _ e he
    rwa [hfst] at hkey

/-- Witness for C6: a concrete tab-creation failure becomes an error record
with its message, and in a completed concrete run both items of the batch
keep their entries even though processing happened under arbitrary
environments. -/
theorem per_item_failure_isolated_witness :
    (processNextItem sampleParams 0 { url := "u", dateStr := "" }
      { outcome := FetchOutcome.createFail "boom", removeFails := false }).record =
      mkErrorRecord sampleParams.itemType sampleParams.dateParse sampleParams.now
        { url := "u", dateStr := "" } "boom" ∧
    "u1" ∈ mapKeys (runPool sampleParams (initPool twoItems) seqSched).resultsMap := by
  obtain ⟨m, hm, hr⟩ := per_item_failure_isolated.1 sampleParams 0 { url := "u", dateStr := "" }
    { outcome := FetchOutcome.createFail "boom", removeFails := false }
    (fun m hsucc => FetchOutcome.noConfusion hsucc)
  have hmb : m = "boom" := by
    simp [tryBody] at hm
    exact hm.symm
  refine ⟨?_, ?_⟩
  · rw [hr, hmb]
  · exact per_item_failure_isolated.2 sampleParams twoItems seqSched (by decide)
      ({ url := "u1", dateStr := "" }, sampleEnvOk) (by decide)

/-- A merged record lacking a parseable timestamp. -/
def undatedRecord : ResultRecord :=
  { type := ItemType.note, title := "t", author := "a", content := "c",
    isPublic := none, toRecipients := none, dateObject := none, url := "u" }

/-- A concrete `getTime` semantics for witnesses. -/
def dvZero : JSDate → Int := fun _ => 0

/-- C7 (amended): after the two pools complete, the coordinator merges their
maps into one sequence, filters it to the entries with a timestamp, and
renders that filtered sequence sorted ascending by the timestamp; entries
lacking a valid timestamp are excluded from the sorted sequence and are not
individually retained anywhere — only the aggregate header counts reflect
them. -/
theorem timeline_sorted_and_valid_only (dv : JSDate → Int)
    (noteDetailsMap emailDetailsMap : List (String × ResultRecord)) :
    List.Sorted (timelineLE dv)
      (buildTimelineView dv (mergeDetailMaps noteDetailsMap emailDetailsMap)).entries ∧
    (buildTimelineView dv (mergeDetailMaps noteDetailsMap emailDetailsMap)).entries.Perm
      ((mergeDetailMaps noteDetailsMap emailDetailsMap).filter isValidTimelineItem) ∧
    (buildTimelineView dv (mergeDetailMaps noteDetailsMap emailDetailsMap)).totalCount =
      (mergeDetailMaps noteDetailsMap emailDetailsMap).length ∧
    ∀ r ∈ mergeDetailMaps noteDetailsMap emailDetailsMap, isValidTimelineItem r = false →
      r ∉ (buildTimelineView dv (mergeDetailMaps noteDetailsMap emailDetailsMap)).entries := by
  haveI htot : IsTotal ResultRecord (timelineLE dv) := ⟨fun a b => le_total _ _⟩
  haveI htrans : IsTrans ResultRecord (timelineLE dv) :=
    ⟨fun a b c hab hbc => le_trans hab hbc⟩
  refine ⟨?_, ?_, rfl, ?_⟩
  · exact List.sorted_insertionSort (timelineLE dv) _
  · exact List.perm_insertionSort (timelineLE dv) _
  · intro r hr hinvalid hmem
    have hfil : r ∈ (mergeDetailMaps noteDetailsMap emailDetailsMap).filter
        isValidTimelineItem :=
      (List.perm_insertionSort (timelineLE dv) _).mem_iff.mp hmem
    have := (List.mem_filter.mp hfil).2
    rw [hinvalid] at this
    cases this

/-- Witness for C7's amended theorem: the concrete undated record is not in
the rendered entries of its own one-element batch. -/
theorem timeline_sorted_and_valid_only_witness :
    undatedRecord ∉
      (buildTimelineView dvZero (mergeDetailMaps [("u", undatedRecord)] [])).entries :=
  (timeline_sorted_and_valid_only dvZero [("u", undatedRecord)] []).2.2.2 undatedRecord
    (by decide) (by decide)

/-- Counterexample to C7 as stated: `buildFullViewHtml` keeps no "unparsed
side list" — a merged entry without a valid timestamp is dropped from the
per-item output entirely (the sorted `entries` list, the only per-item
sequence the document renders, is empty although the merged input held the
record); only the aggregate header count still reflects it. -/
theorem timeline_unparsed_not_retained_counterexample :
    undatedRecord ∈ mergeDetailMaps [("u", undatedRecord)] [] ∧
    undatedRecord.dateObject = none ∧
    (buildTimelineView dvZero (mergeDetailMaps [("u", undatedRecord)] [])).entries = [] ∧
    (buildTimelineView dvZero (mergeDetailMaps [("u", undatedRecord)] [])).totalCount = 1 := by
  decide

/-- C9 (amended: only the first regex match is examined): `parseDateString`
is total (modelled as a total function); it is null on the empty string;
when the first `DD/MM/YYYY HH:MM` match of the input has in-range components
the result is the `Date` built from those components; in every other case —
no match at all, or a first match failing the range check — the result is
non-null exactly when the `Date.parse` fallback succeeds, in which case it
is the fallback's date. -/
theorem parseDateString_characterization (dateParse : String → Option Int) (s : String) :
    (s.isEmpty = true → parseDateString dateParse s = none) ∧
    (∀ g, s.isEmpty = false → firstDMYHM s.data = some g → dmyhmInRange g = true →
      parseDateString dateParse s = some (dateFromGroups g)) ∧
    (s.isEmpty = false →
      (firstDMYHM s.data = none ∨
        (∃ g, firstDMYHM s.data = some g ∧ dmyhmInRange g = false)) →
      parseDateString dateParse s = (dateParse s).map JSDate.fromMs) := by
  refine ⟨?_, ?_, ?_⟩
  · intro h
    simp [parseDateString, h]
  · intro g hne hfirst hrange
    simp [parseDateString, hne, hfirst, hrange]
  · intro hne hcase
    rcases hcase with hnone | ⟨g, hg, hrange⟩
    · cases hd : dateParse s <;> simp [parseDateString, hne, hnone, hd]
    · cases hd : dateParse s <;> simp [parseDateString, hne, hg, hrange, hd]

/-- Witness for C9's amended theorem: a string whose first match is in range
parses on the regex route even under a failing fallback. -/
theorem parseDateString_characterization_witness :
    parseDateString (fun _ => none) "01/02/2020 10:30" =
      some (JSDate.fromComponents 2020 1 1 10 30) := by
  have h := (parseDateString_characterization (fun _ => none) "01/02/2020 10:30").2.1
    { day := 1, month := 2, year := 2020, hour := 10, minute := 30 }
    (by decide) (by decide) (by decide)
  exact h.trans (by decide)

/-- Counterexample to C9 as stated: the input
`"32/01/2024 10:30 01/01/2020 10:30"` contains an in-range
`DD/MM/YYYY HH:MM` substring (`"01/01/2020 10:30"`), yet the function
returns null: the regex's first (leftmost) match is `"32/01/2024 10:30"`,
whose day 32 fails the range check, and the code then falls through to the
`Date.parse` fallback — which yields `NaN` on such a string (the fallback
oracle returning `none`) — without ever examining the later in-range
match. -/
theorem parseDateString_counterexample :
    hasInRangeDMYHM ("32/01/2024 10:30 01/01/2020 10:30").data = true ∧
    parseDateString (fun _ => none) "32/01/2024 10:30 01/01/2020 10:30" = none := by
  decide

/-- C10: the error record synthesized for a failed work item always carries
`dateObject = parseDateString(dateStr) || new Date()` — never null — so it
passes `buildFullViewHtml`'s validity filter and appears in the sorted
timeline whenever it is among the merged items. -/
theorem error_record_in_timeline (P : PoolParams) (tabId : Nat) (it : WorkItem)
    (env : ItemEnv) (dv : JSDate → Int) (timelineItems : List ResultRecord)
    (hfail : ∀ m, env.outcome ≠ FetchOutcome.success m) :
    (processNextItem P tabId it env).record.dateObject =
      some ((parseDateString P.dateParse it.dateStr).getD P.now) ∧
    ((processNextItem P tabId it env).record ∈ timelineItems →
      (processNextItem P tabId it env).record ∈ (buildTimelineView dv timelineItems).entries) := by
  have hdate : (processNextItem P tabId it env).record.dateObject =
      some ((parseDateString P.dateParse it.dateStr).getD P.now) := by
    obtain ⟨o, rf⟩ := env
    cases o with
    | success m => exact absurd rfl (hfail m)
    | createFail m => rfl
    | createNoId => rfl
    | loadTimeout => rfl
    | injectFail m => rfl
    | corrTimeout => rfl
  refine ⟨hdate, ?_⟩
  intro hmem
  have hvalid : isValidTimelineItem (processNextItem P tabId it env).record = true := by
    simp [isValidTimelineItem, hdate]
  have hfilter : (processNextItem P tabId it env).record ∈
      timelineItems.filter isValidTimelineItem :=
    List.mem_filter.mpr ⟨hmem, hvalid⟩
  exact (List.perm_insertionSort (timelineLE dv) _).mem_iff.mpr hfilter

/-- Witness for C10: a concrete readiness-timeout error record is rendered
in the timeline of its own batch. -/
theorem error_record_in_timeline_witness :
    (processNextItem sampleParams 1 { url := "u", dateStr := "" }
      { outcome := FetchOutcome.loadTimeout, removeFails := false }).record ∈
      (buildTimelineView dvZero
        [(processNextItem sampleParams 1 { url := "u", dateStr := "" }
          { outcome := FetchOutcome.loadTimeout, removeFails := false }).record]).entries :=
  (error_record_in_timeline sampleParams 1 { url := "u", dateStr := "" }
    { outcome := FetchOutcome.loadTimeout, removeFails := false } dvZero
    [(processNextItem sampleParams 1 { url := "u", dateStr := "" }
      { outcome := FetchOutcome.loadTimeout, removeFails := false }).record]
    (fun m h => FetchOutcome.noConfusion h)).2 (by simp)
